import Mathlib

/-!
# Verification of the ml-nerc token-feature extraction pipeline

Shallow embedding of the feature-extraction code of the `ml-nerc` repository
(`src/code/features/*.py`, `src/code/extract-features.py`) together with
theorems settling the specification claims about it.

Python strings are modelled as `List Char` (or `String` where only whole-string
operations occur), Python integers as `Int`/`Nat`, Python `dict`s as
association lists, and the external annotators (NLTK `word_tokenize`,
`nltk.pos_tag`) as function parameters, as the spec treats them as pluggable
capabilities.
-/

/-! ## Span-tag alignment (`get_tag`, src/code/features/tokenization.py) -/

/-- BIO span-tag alignment, from `get_tag` in `src/code/features/tokenization.py`
(the identical function also appears in `src/code/extract-features.py`):
scan the spans in the supplied order; at each span `(spanS, spanE, spanT)`,
if `start == spanS and end <= spanE` return `"B-" + spanT`;
else if `start >= spanS and end <= spanE` return `"I-" + spanT`;
if no span matches return `"O"`. -/
def get_tag (token : String × Int × Int) (spans : List (Int × Int × String)) : String :=
  match spans with
  | [] => "O"
  | (spanS, spanE, spanT) :: rest =>
    if token.2.1 = spanS ∧ token.2.2 ≤ spanE then "B-" ++ spanT
    else if spanS ≤ token.2.1 ∧ token.2.2 ≤ spanE then "I-" ++ spanT
    else get_tag token rest

/-- The `B` condition of `get_tag`: token start equals span start and token end
does not exceed span end. -/
def bCond (s e : Int) (sp : Int × Int × String) : Bool :=
  s == sp.1 && e ≤ sp.2.1

/-- The `I` condition of `get_tag`: token start at or after span start and token
end does not exceed span end. -/
def iCond (s e : Int) (sp : Int × Int × String) : Bool :=
  sp.1 ≤ s && e ≤ sp.2.1

/-- C1: `get_tag` returns the tag determined by the first span (in the supplied
order) whose `B` or `I` condition holds — `B-<type>` when that span's `B`
condition (`start == spanS ∧ end ≤ spanE`) holds, else `I-<type>` (then
`start ≥ spanS ∧ end ≤ spanE` holds) — and `O` when no span matches; in
particular the token `("salicylic", 7, 15)` against the single span
`(0, 14, "drug")` ends beyond the span, matches neither condition, and is
tagged `O`. -/
theorem get_tag_first_matching_span (form : String) (s e : Int)
    (spans : List (Int × Int × String)) :
    (get_tag (form, s, e) spans =
      match spans.find? (fun sp => bCond s e sp || iCond s e sp) with
      | none => "O"
      | some sp => if bCond s e sp then "B-" ++ sp.2.2 else "I-" ++ sp.2.2)
    ∧ get_tag ("salicylic", 7, 15) [(0, 14, "drug")] = "O" := by
  constructor
  · induction spans with
    | nil => simp [get_tag]
    | cons sp rest ih =>
      obtain ⟨spanS, spanE, spanT⟩ := sp
      by_cases hB : s = spanS ∧ e ≤ spanE
      · have hb : bCond s e (spanS, spanE, spanT) = true := by
          simp [bCond, hB.1, hB.2]
        rw [List.find?_cons_of_pos _ (by simp [hb])]
        simp only [get_tag, if_pos hB, hb, if_true]
      · have hb : bCond s e (spanS, spanE, spanT) = false := by
          simp only [bCond, Bool.and_eq_false_iff]
          rcases not_and_or.mp hB with h | h
          · left; simpa using h
          · right; simpa using h
        by_cases hI : spanS ≤ s ∧ e ≤ spanE
        · have hi : iCond s e (spanS, spanE, spanT) = true := by
            simp [iCond, hI.1, hI.2]
          rw [List.find?_cons_of_pos _ (by simp [hi])]
          simp only [get_tag, if_neg hB, if_pos hI, hb, Bool.false_eq_true, if_false]
        · have hi : iCond s e (spanS, spanE, spanT) = false := by
            simp only [iCond, Bool.and_eq_false_iff]
            rcases not_and_or.mp hI with h | h
            · left; simpa using h
            · right; simpa using h
          rw [List.find?_cons_of_neg _ (by simp [hb, hi])]
          simp only [get_tag, if_neg hB, if_neg hI]
          exact ih
  · decide

/-! ## Entity-span construction from `charOffset` attributes -/

/-- Decimal numeral parsing (`int(...)` in Python) for the nonnegative decimal
numerals occurring in `charOffset` attributes. -/
def strToInt (s : List Char) : Int :=
  ((s.foldl (fun acc c => acc * 10 + (c.toNat - '0'.toNat)) 0 : Nat) : Int)

/-- Parse one `start-end` range of a `charOffset` attribute into a span triple:
`start, end = offset.split("-")`, then `(int(start), int(end), typ)`. -/
def parseRange (offset : List Char) (typ : String) : Int × Int × String :=
  (strToInt ((offset.splitOn '-').getD 0 []),
   strToInt ((offset.splitOn '-').getD 1 []), typ)

/-- Span extraction of `process_file` in `src/code/features/main.py`
(lines 63–71): `char_offsets = e.attributes["charOffset"].value.split(";")`,
then for **every** `offset` in `char_offsets` a span is appended. Each entity
is given as its `charOffset` string paired with its `type`. -/
def buildSpansMain (entities : List (List Char × String)) : List (Int × Int × String) :=
  entities.foldl (fun spans e =>
    (e.1.splitOn ';').foldl (fun spans2 offset => spans2 ++ [parseRange offset e.2]) spans) []

/-- Span extraction of the legacy `src/code/extract-features.py` (lines 296–302):
`(start, end) = e.attributes["charOffset"].value.split(";")[0].split("-")` —
only the **first** `;`-separated range of each entity becomes a span. -/
def buildSpansLegacy (entities : List (List Char × String)) : List (Int × Int × String) :=
  entities.foldl (fun spans e => spans ++ [parseRange ((e.1.splitOn ';').getD 0 []) e.2]) []

/-- The inner `for offset in char_offsets` loop of `process_file` appends one
span per `;`-separated range. -/
theorem buildSpansMain_inner (ty : String) (offs : List (List Char)) :
    ∀ init : List (Int × Int × String),
      offs.foldl (fun spans2 offset => spans2 ++ [parseRange offset ty]) init
        = init ++ offs.map (fun o => parseRange o ty) := by
  induction offs with
  | nil => intro init; simp
  | cons x xs ih => intro init; simp only [List.foldl_cons, List.map_cons]; rw [ih]; simp

/-- The outer entity loop of `process_file` collects all ranges of all
entities, in entity order. -/
theorem buildSpansMain_outer (entities : List (List Char × String)) :
    ∀ init : List (Int × Int × String),
      entities.foldl (fun spans e =>
          (e.1.splitOn ';').foldl (fun spans2 offset => spans2 ++ [parseRange offset e.2]) spans)
        init
      = init ++ entities.flatMap (fun e => (e.1.splitOn ';').map (fun o => parseRange o e.2)) := by
  induction entities with
  | nil => intro init; simp
  | cons x xs ih =>
    intro init
    simp only [List.foldl_cons, List.flatMap_cons]
    rw [buildSpansMain_inner, ih, List.append_assoc]

/-- The legacy entity loop appends exactly one span per entity. -/
theorem buildSpansLegacy_outer (entities : List (List Char × String)) :
    ∀ init : List (Int × Int × String),
      entities.foldl
        (fun spans e => spans ++ [parseRange ((e.1.splitOn ';').getD 0 []) e.2]) init
      = init ++ entities.map (fun e => parseRange ((e.1.splitOn ';').getD 0 []) e.2) := by
  induction entities with
  | nil => intro init; simp
  | cons x xs ih => intro init; simp only [List.foldl_cons, List.map_cons]; rw [ih]; simp

/-- C2 counterexample: in `features/main.py` every `;`-separated sub-range of a
`charOffset` becomes a span, so a token covering exactly the second sub-range
`(10,14)` of `"0-4;10-14"` is tagged `B-drug` — not `O`, as the claim
requires for tokens overlapping only a later sub-range. -/
theorem buildSpansMain_tags_second_range :
    get_tag ("x", 10, 14) (buildSpansMain [("0-4;10-14".data, "drug")]) = "B-drug"
    ∧ get_tag ("x", 10, 14) (buildSpansMain [("0-4;10-14".data, "drug")]) ≠ "O" := by
  constructor
  · decide
  · decide

/-- C2 amended: only the legacy `extract-features.py` restricts an entity to the
first `;`-separated range of its `charOffset` (so there a token overlapping
only a later sub-range gets `O`); `features/main.py` turns **every**
`;`-separated range into a span. -/
theorem buildSpans_ranges_used (entities : List (List Char × String)) :
    buildSpansMain entities =
      entities.flatMap (fun e => (e.1.splitOn ';').map (fun o => parseRange o e.2))
    ∧ buildSpansLegacy entities =
      entities.map (fun e => parseRange ((e.1.splitOn ';').getD 0 []) e.2)
    ∧ buildSpansLegacy [("0-4;10-14".data, "drug")] = [(0, 4, "drug")]
    ∧ get_tag ("x", 10, 14) (buildSpansLegacy [("0-4;10-14".data, "drug")]) = "O" := by
  refine ⟨?_, ?_, by decide, by decide⟩
  · unfold buildSpansMain
    rw [buildSpansMain_outer]
    simp
  · unfold buildSpansLegacy
    rw [buildSpansLegacy_outer]
    simp

/-! ## Short-entry subset sampling (`sample_short_drugs`, src/code/features/lexicon.py) -/

/-- `sample_short_drugs` from `src/code/features/lexicon.py` (lines 71–73):
`sorted([drug for drug in lexicon if 4 < len(drug) < 10])[:sample_size]`.
The Python set argument is modelled as a list; `sorted` is `mergeSort` by `≤`. -/
def sample_short_drugs (lexicon : List String) (sample_size : Nat) : List String :=
  ((lexicon.filter (fun d => 4 < d.length ∧ d.length < 10)).mergeSort).take sample_size

unseal List.mergeSort List.merge

/-- C9 counterexample: a 9-character entry (`"abcdefghi"`) is kept by the code's
`4 < len < 10` filter, but 9 is not strictly between 4 and 9, so the subset is
not "exactly the entries whose length is strictly between 4 and 9". -/
theorem sample_short_drugs_keeps_length_nine :
    sample_short_drugs ["abcdefghi"] 500 = ["abcdefghi"]
    ∧ ("abcdefghi" : String).length = 9 ∧ ¬((9 : Nat) < 9) := by
  refine ⟨by decide, by decide, by decide⟩

/-- C9 amended: the short-entry subset is drawn from exactly the lexicon
entries whose length is strictly between 4 and 10 (the code's filter is
`4 < len < 10`, i.e. 5–9 characters, so 9-character entries are kept), is
capped at the fixed sample size (all qualifying entries are present whenever
they fit under the cap), is sorted, and is sampled deterministically: any
reordering of the same lexicon set yields the identical list. -/
theorem sample_short_drugs_spec (lexicon : List String) (n : Nat) :
    (∀ d ∈ sample_short_drugs lexicon n, (4 < d.length ∧ d.length < 10) ∧ d ∈ lexicon)
    ∧ (sample_short_drugs lexicon n).length ≤ n
    ∧ ((lexicon.filter (fun d => 4 < d.length ∧ d.length < 10)).length ≤ n →
        ∀ d ∈ lexicon, 4 < d.length → d.length < 10 → d ∈ sample_short_drugs lexicon n)
    ∧ List.Sorted (· ≤ ·) (sample_short_drugs lexicon n)
    ∧ ∀ lexicon' : List String, lexicon.Perm lexicon' →
        sample_short_drugs lexicon n = sample_short_drugs lexicon' n := by
  refine ⟨?_, ?_, ?_, ?_, ?_⟩
  · intro d hd
    have hd1 : d ∈ (lexicon.filter fun d => 4 < d.length ∧ d.length < 10).mergeSort :=
      List.mem_of_mem_take hd
    rw [List.mem_mergeSort] at hd1
    have h2 := List.mem_filter.mp hd1
    exact ⟨by simpa using h2.2, h2.1⟩
  · exact List.length_take_le _ _
  · intro hle d hdl h4 h10
    unfold sample_short_drugs
    rw [List.take_of_length_le]
    · rw [List.mem_mergeSort]
      exact List.mem_filter.mpr ⟨hdl, by simpa using And.intro h4 h10⟩
    · rw [List.length_mergeSort]
      exact hle
  · exact List.Pairwise.sublist (List.take_sublist _ _) (List.sorted_mergeSort' _)
  · intro lexicon' hp
    unfold sample_short_drugs
    congr 1
    exact List.eq_of_perm_of_sorted
      (((List.mergeSort_perm _ _).trans (hp.filter _)).trans (List.mergeSort_perm _ _).symm)
      (List.sorted_mergeSort' _) (List.sorted_mergeSort' _)

/-- C9 witness: the theorem applied to a concrete two-element lexicon and its
reordering: the derived lists are identical. -/
theorem sample_short_drugs_spec_witness :
    sample_short_drugs ["bcdef", "abcde"] 500 = sample_short_drugs ["abcde", "bcdef"] 500 :=
  (sample_short_drugs_spec ["bcdef", "abcde"] 500).2.2.2.2 ["abcde", "bcdef"] (by decide)

/-! ## Offset-tracked tokenization (`tokenize`, src/code/features/tokenization.py) -/

/-- `sub` occurs in `txt` at position `i` (Python `txt[i:i+len(sub)] == sub`). -/
def occursAt (txt sub : List Char) (i : Nat) : Bool :=
  (txt.drop i).take sub.length == sub

/-- Resolution of a possibly negative search start position against a string
length (Python counts a negative start from the end of the string). -/
def pyStartIdx (len : Nat) (start : Int) : Nat :=
  if start < 0 then (max ((len : Int) + start) 0).toNat else start.toNat

/-- Python `str.find(sub, start)`: the smallest index `i ≥ start` (a negative
`start` being counted from the end of the string, as in slicing) at which
`sub` occurs in `txt`, or `-1` when there is none. -/
def pyFind (txt sub : List Char) (start : Int) : Int :=
  match (List.range (txt.length + 1)).find?
      (fun i => decide (pyStartIdx txt.length start ≤ i) && occursAt txt sub i) with
  | some i => (i : Int)
  | none => -1

/-- Python slice index resolution for `txt[a:b]`. -/
def sliceIdx (len : Nat) (i : Int) : Nat :=
  if i < 0 then (max ((len : Int) + i) 0).toNat else min i.toNat len

/-- Python slice `txt[a:b]`. -/
def pySlice (txt : List Char) (a b : Int) : List Char :=
  (txt.drop (sliceIdx txt.length a)).take (sliceIdx txt.length b - sliceIdx txt.length a)

/-- The loop body of `tokenize` in `src/code/features/tokenization.py`
(identical in `src/code/extract-features.py`): for each word `t` produced by
the word-tokenizing annotator, `offset = txt.find(t, offset)`, append
`(t, offset, offset + len(t) - 1)`, then `offset += len(t)`. -/
def tokenizeAux (txt : List Char) : List (List Char) → Int → List (List Char × Int × Int)
  | [], _ => []
  | t :: ts, offset =>
    let o := pyFind txt t offset
    (t, o, o + t.length - 1) :: tokenizeAux txt ts (o + t.length)

/-- `tokenize(txt)`: the external `word_tokenize` annotator is a parameter;
the offset scan starts at 0. -/
def tokenize (wordTokenize : List Char → List (List Char)) (txt : List Char) :
    List (List Char × Int × Int) :=
  tokenizeAux txt (wordTokenize txt) 0

/-- A successful `pyFind` from a nonnegative start yields an index at or after
the start, within the text, at which the pattern occurs. -/
theorem pyFind_success (txt sub : List Char) (start : Int) (h0 : 0 ≤ start)
    (hs : 0 ≤ pyFind txt sub start) :
    start ≤ pyFind txt sub start
    ∧ occursAt txt sub (pyFind txt sub start).toNat = true
    ∧ (pyFind txt sub start).toNat ≤ txt.length := by
  have hn : ¬ start < 0 := not_lt.mpr h0
  unfold pyFind at hs ⊢
  rcases hfind : (List.range (txt.length + 1)).find?
      (fun i => decide (pyStartIdx txt.length start ≤ i) && occursAt txt sub i) with _ | i
  · exfalso
    rw [hfind] at hs
    exact absurd hs (by norm_num)
  · have hp := List.find?_some hfind
    have hmem := List.mem_of_find?_eq_some hfind
    rw [List.mem_range] at hmem
    simp only [Bool.and_eq_true, decide_eq_true_eq, pyStartIdx, if_neg hn] at hp
    refine ⟨?_, ?_, ?_⟩
    · show start ≤ (i : Int)
      have := hp.1
      omega
    · show occursAt txt sub ((i : Int)).toNat = true
      simpa using hp.2
    · show ((i : Int)).toNat ≤ txt.length
      simpa using Nat.lt_succ_iff.mp hmem

/-- An occurrence within the text is recovered exactly by the Python slice
`txt[i : i + len(sub)]`. -/
theorem occursAt_pySlice (txt sub : List Char) (i : Nat) (hocc : occursAt txt sub i = true)
    (hle : i ≤ txt.length) :
    pySlice txt (i : Int) ((i : Int) + sub.length) = sub := by
  have heq : (txt.drop i).take sub.length = sub := by
    simpa [occursAt] using hocc
  have hlen : i + sub.length ≤ txt.length := by
    have := congrArg List.length heq
    simp only [List.length_take, List.length_drop] at this
    omega
  unfold pySlice sliceIdx
  have h1 : ¬ ((i : Int) < 0) := by omega
  have h2 : ¬ ((i : Int) + (sub.length : Int) < 0) := by omega
  simp only [if_neg h1, if_neg h2]
  have e1 : min (i : Int).toNat txt.length = i := by omega
  have e2 : min ((i : Int) + (sub.length : Int)).toNat txt.length = i + sub.length := by
    have : ((i : Int) + (sub.length : Int)).toNat = i + sub.length := by omega
    omega
  rw [e1, e2]
  have e3 : i + sub.length - i = sub.length := by omega
  rw [e3, heq]

/-- Induction core for the tokenizer claim: starting from a nonnegative search
offset, if every emitted token found its surface form (nonnegative start),
then every token's slice `txt[start:end+1]` equals its surface form, every
start is at or after the running offset, and consecutive tokens are ordered
with each start produced by searching from the position immediately after the
previous token's end. -/
theorem tokenizeAux_spec (txt : List Char) (ws : List (List Char)) :
    ∀ offset : Int, 0 ≤ offset →
      (∀ tk ∈ tokenizeAux txt ws offset, 0 ≤ tk.2.1) →
      (∀ tk ∈ tokenizeAux txt ws offset,
          pySlice txt tk.2.1 (tk.2.2 + 1) = tk.1 ∧ offset ≤ tk.2.1)
      ∧ List.Chain' (fun t1 t2 => t1.2.1 ≤ t2.2.1 ∧ t2.2.1 = pyFind txt t2.1 (t1.2.2 + 1))
          (tokenizeAux txt ws offset) := by
  induction ws with
  | nil => intro offset _ _; simp [tokenizeAux]
  | cons t ts ih =>
    intro offset hoff H
    have hhead : (t, pyFind txt t offset, pyFind txt t offset + t.length - 1)
        ∈ tokenizeAux txt (t :: ts) offset := by
      simp [tokenizeAux]
    have ho : 0 ≤ pyFind txt t offset := H _ hhead
    obtain ⟨hge, hocc, hlen⟩ := pyFind_success txt t offset hoff ho
    set o := pyFind txt t offset with ho_def
    have htail : ∀ tk ∈ tokenizeAux txt ts (o + t.length), 0 ≤ tk.2.1 := by
      intro tk htk
      exact H tk (by simp [tokenizeAux, ← ho_def]; right; exact htk)
    have hoff' : 0 ≤ o + (t.length : Int) := by omega
    obtain ⟨ih1, ih2⟩ := ih (o + t.length) hoff' htail
    constructor
    · intro tk htk
      simp only [tokenizeAux, ← ho_def, List.mem_cons] at htk
      rcases htk with h | h
      · subst h
        constructor
        · have : o + (t.length : Int) - 1 + 1 = (o.toNat : Int) + t.length := by
            rw [Int.toNat_of_nonneg ho]; ring
          rw [this]
          have hoeq : o = (o.toNat : Int) := (Int.toNat_of_nonneg ho).symm
          rw [hoeq]
          exact occursAt_pySlice txt t o.toNat hocc hlen
        · exact hge
      · obtain ⟨hs, hge'⟩ := ih1 tk h
        exact ⟨hs, by omega⟩
    · rw [show tokenizeAux txt (t :: ts) offset
          = (t, o, o + t.length - 1) :: tokenizeAux txt ts (o + t.length) by
            simp [tokenizeAux, ← ho_def]]
      rw [List.chain'_cons']
      refine ⟨?_, ih2⟩
      intro y hy
      cases hts : ts with
      | nil => simp [hts, tokenizeAux] at hy
      | cons t' ts' =>
        subst hts
        simp only [tokenizeAux, List.head?_cons, Option.mem_def, Option.some.injEq] at hy
        subst hy
        constructor
        · have h1 : o + (t.length : Int) ≤ pyFind txt t' (o + t.length) := by
            have hm : (t', pyFind txt t' (o + t.length),
                pyFind txt t' (o + t.length) + t'.length - 1)
                ∈ tokenizeAux txt (t' :: ts') (o + t.length) := by simp [tokenizeAux]
            exact (ih1 _ hm).2
          show o ≤ pyFind txt t' (o + (t.length : Int))
          omega
        · simp only
          congr 1
          ring

/-- C3: for every sentence text and every word sequence returned by the
word-tokenizing annotator, provided each emitted token's surface form was
located in the text (nonnegative Python `find` result — i.e. up to the
normalization the annotator itself performs), every emitted token satisfies
`txt[start:end+1] == surface_form`, each token's start is obtained by
searching for its surface form from the position immediately after the
previous token's end, and the starts are non-decreasing along the sequence. -/
theorem tokenize_offset_correct (wordTokenize : List Char → List (List Char))
    (txt : List Char)
    (H : ∀ tk ∈ tokenize wordTokenize txt, (0 : Int) ≤ tk.2.1) :
    (∀ tk ∈ tokenize wordTokenize txt, pySlice txt tk.2.1 (tk.2.2 + 1) = tk.1)
    ∧ List.Chain' (fun t1 t2 => t1.2.1 ≤ t2.2.1 ∧ t2.2.1 = pyFind txt t2.1 (t1.2.2 + 1))
        (tokenize wordTokenize txt) := by
  obtain ⟨h1, h2⟩ := tokenizeAux_spec txt (wordTokenize txt) 0 le_rfl H
  exact ⟨fun tk htk => (h1 tk htk).1, h2⟩

/-- C3 witness: the tokenizer theorem applied to the text `"ab ab"` with the
annotator returning `["ab", "ab"]` — the repeated surface form is resolved to
offsets 0 and 3 and the ordering/search-position chain holds. -/
theorem tokenize_offset_correct_witness :
    List.Chain'
      (fun t1 t2 => t1.2.1 ≤ t2.2.1 ∧ t2.2.1 = pyFind "ab ab".data t2.1 (t1.2.2 + 1))
      (tokenize (fun _ => ["ab".data, "ab".data]) "ab ab".data) :=
  (tokenize_offset_correct (fun _ => ["ab".data, "ab".data]) "ab ab".data (by decide)).2

/-! ## Casing and character-level features
(`casing`, `extract_character_features`, src/code/features/feature_extraction.py) -/

/-- Python `str.isupper` (ASCII semantics): at least one letter and no
lowercase letter. -/
def py_isupper (t : List Char) : Bool :=
  t.any Char.isAlpha && t.all (fun c => !c.isLower)

/-- Python `str.islower` (ASCII semantics): at least one letter and no
uppercase letter. -/
def py_islower (t : List Char) : Bool :=
  t.any Char.isAlpha && t.all (fun c => !c.isUpper)

/-- Scan for Python `str.istitle` (ASCII semantics): uppercase letters may only
follow uncased characters, lowercase letters only cased ones; the Boolean
argument records whether the previous character was cased. -/
def istitleAux : List Char → Bool → Bool
  | [], _ => true
  | c :: cs, prevCased =>
    if c.isUpper then !prevCased && istitleAux cs true
    else if c.isLower then prevCased && istitleAux cs true
    else istitleAux cs false

/-- Python `str.istitle` (ASCII semantics): the titlecase scan succeeds and at
least one uppercase letter occurs. -/
def py_istitle (t : List Char) : Bool :=
  istitleAux t false && t.any Char.isUpper

/-- `casing` from `src/code/features/feature_extraction.py` (lines 28–39):
`isupper → "ALLCAPS"`, elif `istitle → "TITLE"`, elif `islower → "LOWER"`,
elif any uppercase → `"MIXED"`, else `"NOCASE"`. -/
def casing (t : List Char) : String :=
  if py_isupper t then "ALLCAPS"
  else if py_istitle t then "TITLE"
  else if py_islower t then "LOWER"
  else if t.any Char.isUpper then "MIXED"
  else "NOCASE"

/-- The `casing` helper nested in `extract_features` of the legacy
`src/code/extract-features.py` (lines 84–94); identical to `casing` except
that its titlecase branch returns `"Title"`. -/
def casingLegacy (t : List Char) : String :=
  if py_isupper t then "ALLCAPS"
  else if py_istitle t then "Title"
  else if py_islower t then "LOWER"
  else if t.any Char.isUpper then "MIXED"
  else "NOCASE"

/-- `word_shape` from `src/code/features/feature_extraction.py` (lines 66–88):
digit → `d`, uppercase letter → `X`, lowercase letter → `x`, other characters
kept as themselves. -/
def word_shape (t : List Char) : List Char :=
  t.map (fun c =>
    if c.isDigit then 'd'
    else if c.isAlpha then (if c.isUpper then 'X' else 'x')
    else c)

/-- `char_ngrams` from `src/code/features/feature_extraction.py` (lines 42–50):
whole lower-cased token if shorter than `n`, else up to 5 lower-cased
`n`-grams from the left. -/
def char_ngrams (token : List Char) (n : Nat) : List (List Char) :=
  if token.length < n then [token.map Char.toLower]
  else (List.range (min 5 (token.length - n + 1))).map
    (fun i => ((token.drop i).take n).map Char.toLower)

/-- `has_chemical_pattern` from `src/code/features/feature_extraction.py`:
some compiled pattern matches the token; the compiled regexes are modelled as
Boolean predicates. -/
def has_chemical_pattern (token : List Char) (chemical_patterns : List (List Char → Bool)) :
    Bool :=
  chemical_patterns.any (fun p => p token)

/-- `has_drug_affix` from `src/code/features/feature_extraction.py`
(lines 58–63): the lower-cased token's 3-character prefix or suffix is in the
corresponding precomputed affix set. -/
def has_drug_affix (token : List Char) (pre suf : List (List Char)) : Bool :=
  let t_lower := token.map Char.toLower
  if t_lower.length < 3 then false
  else pre.contains (t_lower.take 3) || suf.contains (t_lower.drop (t_lower.length - 3))

/-- `extract_character_features` from `src/code/features/feature_extraction.py`
(lines 144–174), as the list of feature strings appended for a token, in
source order. -/
def extract_character_features (t : List Char) (chemical_patterns : List (List Char → Bool))
    (pre suf : List (List Char)) : List (List Char) :=
  ((char_ngrams t 2).map (fun ng => "char2gram=".data ++ ng))
  ++ ["wordShape=".data ++ word_shape t]
  ++ ["casing=".data ++ (casing t).data]
  ++ (if t.any Char.isDigit then ["hasDigit=true".data] else [])
  ++ (if t.contains '-' then ["hasHyphen=true".data] else [])
  ++ (if t.contains '(' || t.contains ')' then ["hasParenthesis=true".data] else [])
  ++ (if t.contains '[' || t.contains ']' then ["hasBracket=true".data] else [])
  ++ (if has_chemical_pattern t chemical_patterns then ["hasChemicalPattern=true".data] else [])
  ++ (if has_drug_affix t pre suf then ["hasDrugAffix=true".data] else [])
  ++ (if 10 < t.length then ["isLongWord=true".data] else [])

/-- Boolean prefix test recursing on the candidate prefix (so that it reduces
even when only the head of the second list is known); used to select features
by their `name=` prefix and to model Python `str.startswith`. -/
def isPrefixB : List Char → List Char → Bool
  | [], _ => true
  | _ :: _, [] => false
  | a :: as, b :: bs => a == b && isPrefixB as bs

/-- Filtering a prefixed-feature map by a prefix that matches none of its
elements yields the empty list. -/
theorem filter_map_append_nil {c : List Char} {p : List Char → Bool}
    (h : ∀ x, p (c ++ x) = false) (l : List (List Char)) :
    (l.map (fun ng => c ++ ng)).filter p = [] := by
  induction l with
  | nil => rfl
  | cons x xs ih => simp [List.filter_cons, h x, ih]

/-- A conditionally-emitted flag whose text does not carry the prefix
contributes nothing to the prefix filter. -/
theorem filter_ite_flag_nil (c : Prop) [Decidable c] (a : List Char)
    (ha : (isPrefixB "casing=".data a) = false) :
    (if c then [a] else []).filter (fun f => isPrefixB "casing=".data f) = [] := by
  split
  · simp [List.filter_cons, ha]
  · rfl

/-- C4 counterexample: for the title-cased token `"Abc"` the current extractor
(`feature_extraction.py`) emits the casing value `"TITLE"`, which is not among
the five values `ALLCAPS`/`Title`/`LOWER`/`MIXED`/`NOCASE` named by the
claim (only the legacy `extract-features.py` emits `"Title"`). -/
theorem casing_title_value :
    casing "Abc".data = "TITLE"
    ∧ ("TITLE" : String) ∉ (["ALLCAPS", "Title", "LOWER", "MIXED", "NOCASE"] : List String) := by
  constructor
  · decide
  · decide

/-- C4 amended: for every token, `extract_character_features` emits exactly one
casing feature (its value being `casing t`); the casing value is one of
`ALLCAPS`, `TITLE`, `LOWER`, `MIXED`, `NOCASE` (the legacy extractor's value
is one of `ALLCAPS`, `Title`, `LOWER`, `MIXED`, `NOCASE`), chosen mutually
exclusively by the priority order
ALLCAPS > TITLE/Title > LOWER > MIXED > NOCASE. -/
theorem casing_feature_spec (t : List Char) (chemical_patterns : List (List Char → Bool))
    (pre suf : List (List Char)) :
    (extract_character_features t chemical_patterns pre suf).filter
        (fun f => isPrefixB "casing=".data f) = ["casing=".data ++ (casing t).data]
    ∧ (casing t = "ALLCAPS" ∨ casing t = "TITLE" ∨ casing t = "LOWER" ∨ casing t = "MIXED"
        ∨ casing t = "NOCASE")
    ∧ (casingLegacy t = "ALLCAPS" ∨ casingLegacy t = "Title" ∨ casingLegacy t = "LOWER"
        ∨ casingLegacy t = "MIXED" ∨ casingLegacy t = "NOCASE")
    ∧ (py_isupper t = true → casing t = "ALLCAPS")
    ∧ (py_isupper t = false → py_istitle t = true → casing t = "TITLE")
    ∧ (py_isupper t = false → py_istitle t = false → py_islower t = true →
        casing t = "LOWER")
    ∧ (py_isupper t = false → py_istitle t = false → py_islower t = false →
        t.any Char.isUpper = true → casing t = "MIXED")
    ∧ (py_isupper t = false → py_istitle t = false → py_islower t = false →
        t.any Char.isUpper = false → casing t = "NOCASE") := by
  refine ⟨?_, ?_, ?_, ?_, ?_, ?_, ?_, ?_⟩
  · have hng : ∀ x : List Char,
        (isPrefixB "casing=".data ("char2gram=".data ++ x)) = false := fun _ => rfl
    unfold extract_character_features
    simp only [List.filter_append]
    rw [filter_map_append_nil hng,
      filter_ite_flag_nil _ "hasDigit=true".data rfl,
      filter_ite_flag_nil _ "hasHyphen=true".data rfl,
      filter_ite_flag_nil _ "hasParenthesis=true".data rfl,
      filter_ite_flag_nil _ "hasBracket=true".data rfl,
      filter_ite_flag_nil _ "hasChemicalPattern=true".data rfl,
      filter_ite_flag_nil _ "hasDrugAffix=true".data rfl,
      filter_ite_flag_nil _ "isLongWord=true".data rfl]
    rw [show List.filter (fun f => isPrefixB "casing=".data f)
        ["wordShape=".data ++ word_shape t] = [] from rfl]
    rw [show List.filter (fun f => isPrefixB "casing=".data f)
        ["casing=".data ++ (casing t).data]
        = ["casing=".data ++ (casing t).data] from rfl]
    simp
  · unfold casing; split_ifs <;> simp
  · unfold casingLegacy; split_ifs <;> simp
  · intro h; simp [casing, h]
  · intro h1 h2; simp [casing, h1, h2]
  · intro h1 h2 h3; simp [casing, h1, h2, h3]
  · intro h1 h2 h3 h4; simp [casing, h1, h2, h3, h4]
  · intro h1 h2 h3 h4; simp [casing, h1, h2, h3, h4]

/-- C4 witness: the amended theorem applied to the token `"Abc"`, whose legacy
casing value is `"Title"` and whose current casing value is `"TITLE"`. -/
theorem casing_feature_spec_witness :
    casing "Abc".data = "TITLE" ∧ casingLegacy "Abc".data = "Title" := by
  have h := casing_feature_spec "Abc".data [] [] []
  refine ⟨h.2.2.2.2.1 (by decide) (by decide), ?_⟩
  have h3 := h.2.2.1
  revert h3
  decide

/-! ## Discretized embedding features
(`get_embedding_features`, src/code/features/embeddings.py) -/

/-- Python `str.lower` (ASCII semantics), mapped over the characters of a
`String`. -/
def pyLowerS (s : String) : String :=
  ⟨s.data.map Char.toLower⟩

/-- `get_embedding_features` from `src/code/features/embeddings.py`
(lines 51–84): lower-case the token; if the embedding map is empty return the
single marker `emb_unavailable=true`; if the lower-cased token is absent
return the single marker `emb_OOV=true`; otherwise emit, for each of the
first `min(dimension, len(emb))` components, `emb_<i>=<bin>` with
`bin = max(0, min(bins - 1, floor((emb[i] + 1.0) * (bins / 2.0))))`.
Embedding vectors are modelled with rational components and the map as an
association list. -/
def get_embedding_features (token : String) (embeddings : List (String × List ℚ))
    (dimension : Nat) (bins : Nat) : List String :=
  if embeddings.isEmpty then ["emb_unavailable=true"]
  else
    match embeddings.lookup (pyLowerS token) with
    | some emb =>
        (List.range (min dimension emb.length)).map (fun i =>
          "emb_" ++ toString i ++ "=" ++
            toString (max 0 (min ((bins : Int) - 1)
              (Int.floor ((emb.getD i 0 + 1) * ((bins : ℚ) / 2))))))
    | none => ["emb_OOV=true"]

/-- C5: with an empty embedding map the token's embedding contribution is
exactly the single `emb_unavailable=true` marker; with a non-empty map and an
out-of-vocabulary token it is exactly the single `emb_OOV=true` marker; for an
in-vocabulary token one `emb_<i>=<bin>` feature is emitted per represented
dimension, with `bin = clamp(floor((value + 1.0) * bins / 2.0), 0, bins - 1)`,
every emitted bin lying in `[0, bins - 1]`. -/
theorem get_embedding_features_spec (token : String) (embeddings : List (String × List ℚ))
    (dimension bins : Nat) (hbins : 1 ≤ bins) :
    (embeddings = [] →
      get_embedding_features token embeddings dimension bins = ["emb_unavailable=true"])
    ∧ (embeddings ≠ [] → embeddings.lookup (pyLowerS token) = none →
      get_embedding_features token embeddings dimension bins = ["emb_OOV=true"])
    ∧ (∀ emb, embeddings ≠ [] → embeddings.lookup (pyLowerS token) = some emb →
      (get_embedding_features token embeddings dimension bins).length
          = min dimension emb.length
      ∧ ∀ i < min dimension emb.length, ∃ b : Int,
          0 ≤ b ∧ b ≤ (bins : Int) - 1
          ∧ b = max 0 (min ((bins : Int) - 1)
              (Int.floor ((emb.getD i 0 + 1) * ((bins : ℚ) / 2))))
          ∧ (get_embedding_features token embeddings dimension bins).getD i ""
              = "emb_" ++ toString i ++ "=" ++ toString b) := by
  refine ⟨?_, ?_, ?_⟩
  · intro h
    subst h
    rfl
  · intro hne hnone
    have hemp : embeddings.isEmpty = false := by
      simpa [List.isEmpty_iff] using hne
    simp [get_embedding_features, hemp, hnone]
  · intro emb hne hsome
    have hemp : embeddings.isEmpty = false := by
      simpa [List.isEmpty_iff] using hne
    have hres : get_embedding_features token embeddings dimension bins
        = (List.range (min dimension emb.length)).map (fun i =>
            "emb_" ++ toString i ++ "=" ++
              toString (max 0 (min ((bins : Int) - 1)
                (Int.floor ((emb.getD i 0 + 1) * ((bins : ℚ) / 2)))))) := by
      simp [get_embedding_features, hemp, hsome]
    constructor
    · simp [hres]
    · intro i hi
      refine ⟨max 0 (min ((bins : Int) - 1)
          (Int.floor ((emb.getD i 0 + 1) * ((bins : ℚ) / 2)))), ?_, ?_, rfl, ?_⟩
      · exact le_max_left 0 _
      · have hb : (1 : Int) ≤ (bins : Int) := by exact_mod_cast hbins
        omega
      · rw [hres]
        simp [List.getD, List.getElem?_map, List.getElem?_range, hi]

/-- C5 witness: with the one-entry map `{"a" ↦ (0, -2, 2)}`, dimension 2 and
5 bins, the token `"A"` gets exactly two bin features. -/
theorem get_embedding_features_spec_witness :
    (get_embedding_features "A" [("a", [0, -2, 2])] 2 5).length = min 2 3 :=
  (((get_embedding_features_spec "A" [("a", [0, -2, 2])] 2 5 (by decide)).2.2)
    [0, -2, 2] (by decide) (by decide)).1

/-! ## Lexicon exact-match normalization
(`extract_lexicon_features`, src/code/features/feature_extraction.py) -/

/-- Python `str.lower` (ASCII semantics) on a character list. -/
def pyLower (t : List Char) : List Char :=
  t.map Char.toLower

/-- The apostrophe character (written via its code point). -/
def apostrophe : Char := Char.ofNat 39

/-- Python `str.rstrip(cutset)`: remove all trailing characters belonging to
the cutset. -/
def pyRstrip (s cutset : List Char) : List Char :=
  (s.reverse.dropWhile (fun c => cutset.contains c)).reverse

/-- The punctuation cutset `".,;:!?-"` used by the lexicon normalizations. -/
def punctCutset : List Char := ['.', ',', ';', ':', '!', '?', '-']

/-- Boolean suffix test (Python `str.endswith`). -/
def isSuffixB (pat s : List Char) : Bool :=
  isPrefixB pat.reverse s.reverse

/-- The token normalization of `extract_lexicon_features` in
`src/code/features/feature_extraction.py` (lines 211–217):
`surface1 = token.lower().rstrip(".,;:!?-")`; then if it ends with `'s`
drop the last two characters; then if the result ends with `s` drop the last
character. -/
def normalizeToken (t : List Char) : List Char :=
  let surface1 := pyRstrip (pyLower t) punctCutset
  let n1 := if isSuffixB [apostrophe, 's'] surface1
    then surface1.take (surface1.length - 2) else surface1
  if isSuffixB ['s'] n1 then n1.take (n1.length - 1) else n1

/-- The normalization as worded by the claim, for comparison with
`normalizeToken`: lower-case, strip trailing punctuation, then strip a single
trailing possessive `'s`, plural `es`, or plural `s`. -/
def claimNormalize (t : List Char) : List Char :=
  let base := pyRstrip (pyLower t) punctCutset
  if isSuffixB [apostrophe, 's'] base then base.take (base.length - 2)
  else if isSuffixB ['e', 's'] base then base.take (base.length - 2)
  else if isSuffixB ['s'] base then base.take (base.length - 1)
  else base

/-- The exact-lookup part of `extract_lexicon_features` in
`src/code/features/feature_extraction.py` (lines 231–238): emit
`exactInDrugBank=true` (plus `drugType=<type>` when the type map knows the
normalized form) when the normalized token is in the DrugBank lexicon, and
`exactInHSDB=true` when it is in the HSDB lexicon. -/
def extract_lexicon_exact (t : List Char) (drugbank_lexicon : List (List Char))
    (drugbank_types : List (List Char × List Char)) (hsdb_lexicon : List (List Char)) :
    List (List Char) :=
  let normed := normalizeToken t
  (if drugbank_lexicon.contains normed then
      "exactInDrugBank=true".data ::
        (match drugbank_types.lookup normed with
         | some ty => ["drugType=".data ++ ty]
         | none => [])
    else [])
  ++ (if hsdb_lexicon.contains normed then ["exactInHSDB=true".data] else [])

/-- C6 counterexample: the code never strips a trailing `es` as a unit; for the
token `"churches"` the code's normalized form is `"churche"` while the claim's
normalization gives `"church"`, so against a lexicon containing `"church"`
neither `exactInDrugBank=true` nor `exactInHSDB=true` is emitted even though
the claim-normalized form is a lexicon member. -/
theorem lexicon_normalization_no_es :
    normalizeToken "churches".data = "churche".data
    ∧ claimNormalize "churches".data = "church".data
    ∧ extract_lexicon_exact "churches".data ["church".data] [] ["church".data] = []
    ∧ (["church".data] : List (List Char)).contains (claimNormalize "churches".data)
        = true := by
  refine ⟨by decide, by decide, by decide, by decide⟩

/-- A `take` of a list is recognized as a Boolean prefix of it. -/
theorem isPrefixB_take (l : List Char) : ∀ k, isPrefixB (l.take k) l = true := by
  induction l with
  | nil => intro k; cases k <;> rfl
  | cons c cs ih =>
    intro k
    cases k with
    | zero => rfl
    | succ k => simp [List.take, isPrefixB, ih k]

/-- C6 amended: the exact-lookup normalization lower-cases the token, strips
all trailing punctuation, then strips a trailing possessive `'s` if present
and after that a trailing `s` if present — never an `es` unit — and
`exactInDrugBank=true` / `exactInHSDB=true` are emitted if and only if this
normalized form is a member of the corresponding lexicon; the normalization
only ever removes a suffix of the lowered, punctuation-stripped token. -/
theorem extract_lexicon_exact_spec (t : List Char) (db : List (List Char))
    (types : List (List Char × List Char)) (hsdb : List (List Char)) :
    ("exactInDrugBank=true".data ∈ extract_lexicon_exact t db types hsdb
      ↔ db.contains (normalizeToken t) = true)
    ∧ ("exactInHSDB=true".data ∈ extract_lexicon_exact t db types hsdb
      ↔ hsdb.contains (normalizeToken t) = true)
    ∧ isPrefixB (normalizeToken t) (pyRstrip (pyLower t) punctCutset) = true := by
  have hdt : ∀ x : List Char, "exactInHSDB=true".data ≠ "drugType=".data ++ x := by
    intro x h
    injection h with h1 _
    exact absurd h1 (by decide)
  have hval : extract_lexicon_exact t db types hsdb
      = (if db.contains (normalizeToken t) then
          "exactInDrugBank=true".data ::
            (match types.lookup (normalizeToken t) with
             | some ty => ["drugType=".data ++ ty]
             | none => [])
        else [])
        ++ (if hsdb.contains (normalizeToken t) then ["exactInHSDB=true".data] else []) :=
    rfl
  refine ⟨?_, ?_, ?_⟩
  · by_cases hdb : db.contains (normalizeToken t) = true
    · rw [hval, if_pos hdb]
      constructor
      · intro _; exact hdb
      · intro _; exact List.mem_append_left _ (List.mem_cons_self _ _)
    · rw [Bool.not_eq_true] at hdb
      rw [hval, hdb]
      simp only [Bool.false_eq_true, if_false, List.nil_append, hdb, iff_false]
      intro hmem
      by_cases hh : hsdb.contains (normalizeToken t) = true
      · rw [hh, if_pos rfl] at hmem
        simp only [List.mem_singleton] at hmem
        exact absurd hmem (by decide)
      · rw [Bool.not_eq_true] at hh
        rw [hh] at hmem
        simp at hmem
  · by_cases hh : hsdb.contains (normalizeToken t) = true
    · rw [hval, if_pos hh]
      constructor
      · intro _; exact hh
      · intro _; exact List.mem_append_right _ (List.mem_singleton_self _)
    · rw [Bool.not_eq_true] at hh
      rw [hval, hh]
      simp only [Bool.false_eq_true, if_false, List.append_nil, hh, iff_false]
      intro hmem
      by_cases hdb : db.contains (normalizeToken t) = true
      · rw [hdb, if_pos rfl] at hmem
        rcases List.mem_cons.mp hmem with h | h
        · exact absurd h (by decide)
        · rcases hlk : List.lookup (normalizeToken t) types with _ | ty
          · rw [hlk] at h
            simp at h
          · rw [hlk] at h
            simp only [List.mem_singleton] at h
            exact hdt ty h
      · rw [Bool.not_eq_true] at hdb
        rw [hdb] at hmem
        simp at hmem
  · have hpt : ∀ (l : List Char) (a b : Nat), isPrefixB ((l.take a).take b) l = true := by
      intro l a b
      rw [List.take_take]
      exact isPrefixB_take l _
    have hself : ∀ l : List Char, isPrefixB l l = true := by
      intro l
      have h := isPrefixB_take l l.length
      rwa [List.take_length] at h
    simp only [normalizeToken]
    split
    · split
      · exact hpt _ _ _
      · exact isPrefixB_take _ _
    · split
      · exact isPrefixB_take _ _
      · exact hself _

/-! ## Feature-string escaping (`process_file`, src/code/features/main.py) -/

/-- Python `str.replace` with a single-character pattern: every occurrence of
the character is replaced. -/
def replace1 (a : Char) (rep : List Char) (s : List Char) : List Char :=
  s.flatMap (fun c => if c = a then rep else [c])

/-- Python `str.replace` with a two-character pattern: scan left to right,
replace each occurrence and continue after it. -/
def replace2 (p1 p2 : Char) (rep : List Char) : List Char → List Char
  | [] => []
  | [c] => [c]
  | c1 :: c2 :: cs =>
    if c1 = p1 ∧ c2 = p2 then rep ++ replace2 p1 p2 rep cs
    else c1 :: replace2 p1 p2 rep (c2 :: cs)

/-- The sanitization applied to every feature (and token) string in
`process_file` of `src/code/features/main.py` (lines 107–108):
`str(f).replace('\n', '\\n').replace('\t', '\\t')`. -/
def sanitizeFeature (s : List Char) : List Char :=
  replace1 '\t' ['\\', 't'] (replace1 '\n' ['\\', 'n'] s)

/-- Modelled from the spec: the consumer-side inverse unescaping (`\\t` back to
tab, then `\\n` back to newline) — no consumer inside the repository performs
unescaping (`train-crf.py` only splits on tabs), so the inverse mapping named
by the spec is modelled as the two inverse replacements applied in reverse
order of the escape. -/
def unescapeFeature (s : List Char) : List Char :=
  replace2 '\\' 'n' ['\n'] (replace2 '\\' 't' ['\t'] s)

/-- Substring containment (Python `in` on strings). -/
def containsSub (pat : List Char) : List Char → Bool
  | [] => pat.isEmpty
  | c :: cs => isPrefixB pat (c :: cs) || containsSub pat cs

/-- Per-character expansion performed by the escape: newline and tab become
their two-character escape sequences. -/
def escChar (c : Char) : List Char :=
  if c = '\n' then ['\\', 'n'] else if c = '\t' then ['\\', 't'] else [c]

/-- Per-character expansion after the tab escapes have been undone: only the
newline escape remains. -/
def escChar1 (c : Char) : List Char :=
  if c = '\n' then ['\\', 'n'] else [c]

/-- C7 counterexample: the escape is not injective — a feature containing a
real tab and a feature containing the two characters backslash-`t` escape to
the same string, and even the spec's inverse mapping cannot recover the
backslash-`t` original. -/
theorem sanitizeFeature_not_injective :
    sanitizeFeature "a\tb".data = sanitizeFeature ['a', '\\', 't', 'b']
    ∧ "a\tb".data ≠ ['a', '\\', 't', 'b']
    ∧ unescapeFeature (sanitizeFeature ['a', '\\', 't', 'b']) ≠ ['a', '\\', 't', 'b'] := by
  refine ⟨by decide, by decide, by decide⟩

/-- The escape is the per-character expansion `escChar`. -/
theorem sanitizeFeature_eq_flatMap (s : List Char) :
    sanitizeFeature s = s.flatMap escChar := by
  have key : ∀ (c : Char) (cs : List Char),
      sanitizeFeature (c :: cs) = escChar c ++ sanitizeFeature cs := by
    intro c cs
    show replace1 '\t' ['\\', 't'] (replace1 '\n' ['\\', 'n'] (c :: cs)) = _
    simp only [replace1, List.flatMap_cons, List.flatMap_append]
    congr 1
    by_cases h1 : c = '\n'
    · subst h1; rfl
    · by_cases h2 : c = '\t'
      · subst h2; rfl
      · simp [escChar, h1, h2]
  induction s with
  | nil => rfl
  | cons c cs ih => rw [key, ih, List.flatMap_cons]

/-- Unfolding `replace2` when the head cannot start a match. -/
theorem replace2_cons_ne (p1 p2 : Char) (rep : List Char) (c : Char) (rest : List Char)
    (h : c ≠ p1) :
    replace2 p1 p2 rep (c :: rest) = c :: replace2 p1 p2 rep rest := by
  cases rest with
  | nil => rfl
  | cons d ds => simp [replace2, h]

/-- Unfolding `replace2` when the leading pair is not the pattern. -/
theorem replace2_pair_ne (p1 p2 : Char) (rep : List Char) (c1 c2 : Char) (rest : List Char)
    (h : ¬(c1 = p1 ∧ c2 = p2)) :
    replace2 p1 p2 rep (c1 :: c2 :: rest) = c1 :: replace2 p1 p2 rep (c2 :: rest) := by
  simp only [replace2]
  rw [if_neg h]

/-- Unfolding `replace2` at a match. -/
theorem replace2_match (p1 p2 : Char) (rep : List Char) (rest : List Char) :
    replace2 p1 p2 rep (p1 :: p2 :: rest) = rep ++ replace2 p1 p2 rep rest := by
  simp [replace2]

/-- Undoing the tab escapes of an escaped string (first unescape stage), valid
when the original contains no literal backslash-`t` pair. -/
theorem unescape_t_stage (s : List Char) (hno : containsSub ['\\', 't'] s = false) :
    replace2 '\\' 't' ['\t'] (s.flatMap escChar) = s.flatMap escChar1 := by
  induction s with
  | nil => rfl
  | cons c cs ih =>
    have hno' : containsSub ['\\', 't'] cs = false := by
      simp only [containsSub, Bool.or_eq_false_iff] at hno
      exact hno.2
    by_cases h1 : c = '\n'
    · subst h1
      show replace2 '\\' 't' ['\t'] ('\\' :: 'n' :: cs.flatMap escChar)
        = ('\n' :: cs).flatMap escChar1
      rw [replace2_pair_ne _ _ _ _ _ _ (by simp)]
      rw [replace2_cons_ne _ _ _ _ _ (by decide)]
      rw [ih hno']
      rfl
    · by_cases h2 : c = '\t'
      · subst h2
        show replace2 '\\' 't' ['\t'] ('\\' :: 't' :: cs.flatMap escChar)
          = ('\t' :: cs).flatMap escChar1
        rw [replace2_match, ih hno']
        rfl
      · by_cases h3 : c = '\\'
        · subst h3
          show replace2 '\\' 't' ['\t'] ('\\' :: cs.flatMap escChar)
            = ('\\' :: cs).flatMap escChar1
          cases cs with
          | nil => rfl
          | cons d ds =>
            have hd : d ≠ 't' := by
              intro hdt
              subst hdt
              simp [containsSub, isPrefixB] at hno
            have hX : ∃ h0 Xtail, (d :: ds).flatMap escChar = h0 :: Xtail ∧ h0 ≠ 't' := by
              by_cases hd1 : d = '\n'
              · subst hd1; exact ⟨'\\', _, rfl, by decide⟩
              · by_cases hd2 : d = '\t'
                · subst hd2; exact ⟨'\\', _, rfl, by decide⟩
                · refine ⟨d, ds.flatMap escChar, ?_, hd⟩
                  rw [List.flatMap_cons]
                  simp [escChar, hd1, hd2]
            obtain ⟨h0, Xtail, hXeq, hne⟩ := hX
            rw [hXeq, replace2_pair_ne _ _ _ _ _ _ (by simp [hne]), ← hXeq, ih hno']
            rfl
        · show replace2 '\\' 't' ['\t'] (escChar c ++ cs.flatMap escChar)
            = (c :: cs).flatMap escChar1
          have hesc : escChar c = [c] := by simp [escChar, h1, h2]
          rw [hesc]
          show replace2 '\\' 't' ['\t'] (c :: cs.flatMap escChar) = _
          rw [replace2_cons_ne _ _ _ _ _ h3, ih hno']
          rw [List.flatMap_cons]
          have hesc1 : escChar1 c = [c] := by simp [escChar1, h1]
          rw [hesc1]
          rfl

/-- Undoing the newline escapes (second unescape stage), valid when the
original contains no literal backslash-`n` pair. -/
theorem unescape_n_stage (s : List Char) (hno : containsSub ['\\', 'n'] s = false) :
    replace2 '\\' 'n' ['\n'] (s.flatMap escChar1) = s := by
  induction s with
  | nil => rfl
  | cons c cs ih =>
    have hno' : containsSub ['\\', 'n'] cs = false := by
      simp only [containsSub, Bool.or_eq_false_iff] at hno
      exact hno.2
    by_cases h1 : c = '\n'
    · subst h1
      show replace2 '\\' 'n' ['\n'] ('\\' :: 'n' :: cs.flatMap escChar1) = '\n' :: cs
      rw [replace2_match, ih hno']
      rfl
    · by_cases h3 : c = '\\'
      · subst h3
        show replace2 '\\' 'n' ['\n'] ('\\' :: cs.flatMap escChar1) = '\\' :: cs
        cases cs with
        | nil => rfl
        | cons d ds =>
          have hd : d ≠ 'n' := by
            intro hdn
            subst hdn
            simp [containsSub, isPrefixB] at hno
          have hX : ∃ h0 Xtail, (d :: ds).flatMap escChar1 = h0 :: Xtail ∧ h0 ≠ 'n' := by
            by_cases hd1 : d = '\n'
            · subst hd1; exact ⟨'\\', _, rfl, by decide⟩
            · refine ⟨d, ds.flatMap escChar1, ?_, hd⟩
              rw [List.flatMap_cons]
              simp [escChar1, hd1]
          obtain ⟨h0, Xtail, hXeq, hne⟩ := hX
          rw [hXeq, replace2_pair_ne _ _ _ _ _ _ (by simp [hne]), ← hXeq, ih hno']
      · show replace2 '\\' 'n' ['\n'] (escChar1 c ++ cs.flatMap escChar1) = c :: cs
        have hesc1 : escChar1 c = [c] := by simp [escChar1, h1]
        rw [hesc1]
        show replace2 '\\' 'n' ['\n'] (c :: cs.flatMap escChar1) = _
        rw [replace2_cons_ne _ _ _ _ _ h3, ih hno']

/-- C7 amended: for feature strings containing no literal backslash-`n` or
backslash-`t` character pair, unescaping with the inverse mapping recovers the
original exactly, and on this domain the escape is injective; strings that
already contain such backslash pairs (in particular some strings containing
backslashes) are not recoverable, as the escape identifies them with escaped
tab/newline strings. -/
theorem sanitizeFeature_roundtrip (s : List Char)
    (h1 : containsSub ['\\', 'n'] s = false) (h2 : containsSub ['\\', 't'] s = false) :
    unescapeFeature (sanitizeFeature s) = s
    ∧ ∀ s2 : List Char, containsSub ['\\', 'n'] s2 = false →
        containsSub ['\\', 't'] s2 = false →
        sanitizeFeature s = sanitizeFeature s2 → s = s2 := by
  have hrt : ∀ u : List Char, containsSub ['\\', 'n'] u = false →
      containsSub ['\\', 't'] u = false → unescapeFeature (sanitizeFeature u) = u := by
    intro u hu1 hu2
    rw [sanitizeFeature_eq_flatMap]
    unfold unescapeFeature
    rw [unescape_t_stage u hu2, unescape_n_stage u hu1]
  refine ⟨hrt s h1 h2, ?_⟩
  intro s2 h1' h2' heq
  calc s = unescapeFeature (sanitizeFeature s) := (hrt s h1 h2).symm
    _ = unescapeFeature (sanitizeFeature s2) := by rw [heq]
    _ = s2 := hrt s2 h1' h2'

/-- C7 witness: the round-trip theorem applied to the tab-containing feature
string `"a\tb"`. -/
theorem sanitizeFeature_roundtrip_witness :
    unescapeFeature (sanitizeFeature "a\tb".data) = "a\tb".data :=
  (sanitizeFeature_roundtrip "a\tb".data (by decide) (by decide)).1

/-! ## POS features (`extract_features` / `extract_pos_features`,
src/code/features/feature_extraction.py) -/

/-- The POS pre-computation of `extract_features` in
`src/code/features/feature_extraction.py` (lines 286–305): call the external
`nltk.pos_tag` on the token texts (`none` models the annotator raising; an
empty token list is never tagged); on a length mismatch, pad the pair list at
the tail with `(token_texts[i], "UNK")` placeholders; on failure substitute
`(text, "UNK")` for every token. -/
def computePosTags (posTag : List String → Option (List (String × String)))
    (tokenTexts : List String) : List (String × String) :=
  match (if tokenTexts.isEmpty then some [] else posTag tokenTexts) with
  | none => tokenTexts.map (fun text => (text, "UNK"))
  | some tags =>
      if tags.length ≠ tokenTexts.length then
        tags ++ (List.range' tags.length (tokenTexts.length - tags.length)).map
          (fun i => (if i < tokenTexts.length then tokenTexts.getD i "UNK" else "UNK", "UNK"))
      else tags

/-- `extract_pos_features` from `src/code/features/feature_extraction.py`
(lines 260–268): if the index is in bounds and the pair's tag value is a
non-empty string, append `pos=<tag>`; otherwise append the placeholder
`pos=UNK`. Returned as the (one-element) list of features it appends. -/
def extract_pos_features (pos_tags : List (String × String)) (index : Nat) : List String :=
  match pos_tags[index]? with
  | some pr => if pr.2 ≠ "" then ["pos=" ++ pr.2] else ["pos=UNK"]
  | none => ["pos=UNK"]

/-- C8: when the POS annotator returns fewer pairs than tokens, the pair list
is padded with `UNK` placeholders at the tail so that the returned pairs keep
their positions and every token still receives exactly one `pos=` feature,
the tokens beyond the returned pairs receiving `pos=UNK`; and when the
annotator raises for the whole sentence, every token receives `pos=UNK`. -/
theorem pos_features_padded (posTag : List String → Option (List (String × String)))
    (texts : List String) (tags : List (String × String)) (k : Nat)
    (hk : k < texts.length) (hne : texts ≠ []) :
    (posTag texts = some tags → tags.length < texts.length →
      ((extract_pos_features (computePosTags posTag texts) k).length = 1
       ∧ (computePosTags posTag texts).length = texts.length
       ∧ (tags.length ≤ k →
            extract_pos_features (computePosTags posTag texts) k = ["pos=UNK"])
       ∧ (k < tags.length → (computePosTags posTag texts)[k]? = tags[k]?)))
    ∧ (posTag texts = none →
        extract_pos_features (computePosTags posTag texts) k = ["pos=UNK"]) := by
  have hemp : texts.isEmpty = false := by
    simpa [List.isEmpty_iff] using hne
  have hlen1 : ∀ pt : List (String × String), ∀ i : Nat,
      (extract_pos_features pt i).length = 1 := by
    intro pt i
    unfold extract_pos_features
    rcases pt[i]? with _ | pr
    · rfl
    · by_cases hpr : pr.2 ≠ ""
      · simp [hpr]
      · simp [hpr]
  constructor
  · intro hsome hlt
    have hval : computePosTags posTag texts
        = tags ++ (List.range' tags.length (texts.length - tags.length)).map
            (fun i => (if i < texts.length then texts.getD i "UNK" else "UNK", "UNK")) := by
      unfold computePosTags
      rw [hemp]
      simp only [Bool.false_eq_true, if_false, hsome]
      rw [if_pos (Nat.ne_of_lt hlt)]
    refine ⟨hlen1 _ _, ?_, ?_, ?_⟩
    · rw [hval, List.length_append, List.length_map, List.length_range']
      omega
    · intro hge
      have hpad : (computePosTags posTag texts)[k]?
          = some (texts.getD k "UNK", "UNK") := by
        rw [hval, List.getElem?_append_right hge, List.getElem?_map]
        have hklt : k - tags.length < texts.length - tags.length := by omega
        rw [List.getElem?_range' _ _ hklt, Option.map_some']
        have hidx : tags.length + 1 * (k - tags.length) = k := by omega
        rw [hidx, if_pos hk]
      unfold extract_pos_features
      rw [hpad]
      rfl
    · intro hklt
      rw [hval, List.getElem?_append_left hklt]
  · intro hnone
    have hval : computePosTags posTag texts = texts.map (fun text => (text, "UNK")) := by
      unfold computePosTags
      rw [hemp]
      simp only [Bool.false_eq_true, if_false, hnone]
    unfold extract_pos_features
    rw [hval, List.getElem?_map]
    rcases hg : texts[k]? with _ | tx
    · rw [List.getElem?_eq_none_iff] at hg
      omega
    · simp

/-- A concrete POS annotator returning one pair for any input, used to witness
the padding theorem. -/
def posTagShort : List String → Option (List (String × String)) :=
  fun _ => some [("a", "DT")]

/-- C8 witness: with two tokens and an annotator returning a single pair, the
second token's POS feature is the `pos=UNK` placeholder. -/
theorem pos_features_padded_witness :
    extract_pos_features (computePosTags posTagShort ["a", "b"]) 1 = ["pos=UNK"] :=
  (((pos_features_padded posTagShort ["a", "b"] [("a", "DT")] 1 (by decide)
      (by decide)).1 rfl (by decide)).2.2.1 (by decide))

/-! ## drug_n partial matching (`partial_match_drug_n`,
src/code/features/drug_n_features.py) -/

/-- Python `str.strip(cutset)`: remove leading and trailing characters
belonging to the cutset. -/
def pyStrip (s cutset : List Char) : List Char :=
  ((s.dropWhile (fun c => cutset.contains c)).reverse.dropWhile
    (fun c => cutset.contains c)).reverse

/-- Step 1 of `partial_match_drug_n`: exact lexicon membership of the
normalized token. -/
def drug_n_exact_check (t_lower : List Char) (lexicon : List (List Char)) : Bool :=
  lexicon.contains t_lower

/-- Step 2 of `partial_match_drug_n`: some drug_n regex pattern matches the
raw token (the compiled regexes are modelled as Boolean predicates). -/
def drug_n_pattern_check (token : List Char) (patterns : List (List Char → Bool)) : Bool :=
  patterns.any (fun p => p token)

/-- Step 3 of `partial_match_drug_n`: the capitalization heuristic —
`token[0].isupper() and any(c.islower() for c in token) and len(token) > 3`
and the token contains a space or hyphen. -/
def drug_n_cap_check (token : List Char) : Bool :=
  (token.headD ' ').isUpper && token.any Char.isLower && decide (3 < token.length)
    && (token.contains ' ' || token.contains '-')

/-- Step 4 of `partial_match_drug_n`: indexed partial matching — when both the
prefix and suffix indexes are loaded (`Option` models the module-level `None`
state) and the normalized token has at least 3 characters, look up its
3-character prefix (suffix) and accept a candidate sharing a `startswith`
(`endswith`) relation in either direction with length difference at most 3. -/
def drug_n_index_check (t_lower : List Char)
    (pidx sidx : Option (List Char → Option (List (List Char)))) : Bool :=
  match pidx, sidx with
  | some pi, some si =>
    decide (3 ≤ t_lower.length) &&
    ((match pi (t_lower.take 3) with
      | some drugs => drugs.any (fun drug =>
          (isPrefixB drug t_lower || isPrefixB t_lower drug)
          && decide (((drug.length : Int) - t_lower.length).natAbs ≤ 3))
      | none => false)
     ||
     (match si (t_lower.drop (t_lower.length - 3)) with
      | some drugs => drugs.any (fun drug =>
          (isSuffixB drug t_lower || isSuffixB t_lower drug)
          && decide (((drug.length : Int) - t_lower.length).natAbs ≤ 3))
      | none => false))
  | _, _ => false

/-- The final pre-filter of `partial_match_drug_n` (lines 256–260): the
normalized token contains one of the frequent domain substrings or starts
with one of the frequent domain prefixes. -/
def drug_n_prefilter (t_lower : List Char) : Bool :=
  (["in", "ol", "ine", "ide", "ate", "mab", "nib", "pril"].map String.data).any
      (fun s => containsSub s t_lower)
  || (["des", "di", "tri", "de", "hydro", "ace", "cal", "aco", "dex"].map String.data).any
      (fun s => isPrefixB s t_lower)

/-- `partial_match_drug_n` from `src/code/features/drug_n_features.py`
(lines 198–262): normalize (`lower().strip(".,;:!?-")`), reject tokens
shorter than 3 characters, then try the exact check, the pattern checks, the
capitalization heuristic, and the indexed lookups; finally, `if not (...)`
over the pre-filter returns `False`, and the fall-through also returns
`False` ("skip expensive partial matching"). `drug_n_patterns` is the
effective pattern list (after the `if not drug_n_patterns` default
substitution performed by the resource loader). -/
def partial_match_drug_n (token : List Char) (drug_n_lexicon : List (List Char))
    (drug_n_patterns : List (List Char → Bool))
    (pidx sidx : Option (List Char → Option (List (List Char)))) : Bool :=
  let t_lower := pyStrip (pyLower token) punctCutset
  if t_lower.length < 3 then false
  else if drug_n_exact_check t_lower drug_n_lexicon then true
  else if drug_n_pattern_check token drug_n_patterns then true
  else if drug_n_cap_check token then true
  else if drug_n_index_check t_lower pidx sidx then true
  else if !(drug_n_prefilter t_lower) then false
  else false

/-- C10: `partial_match_drug_n` equals the disjunction of its first four
checks (after the length guard) — both branches of the final pre-filter
return `False`, so the linear-scan fallback is unreachable and the pre-filter
never changes the result; in particular, whenever the exact check, the
pattern checks, the capitalization heuristic, and the index lookups all fail,
the function returns `False` regardless of the pre-filter. -/
theorem partial_match_drug_n_prefilter_irrelevant (token : List Char)
    (lexicon : List (List Char)) (patterns : List (List Char → Bool))
    (pidx sidx : Option (List Char → Option (List (List Char)))) :
    (partial_match_drug_n token lexicon patterns pidx sidx =
      (if (pyStrip (pyLower token) punctCutset).length < 3 then false
       else (drug_n_exact_check (pyStrip (pyLower token) punctCutset) lexicon
         || drug_n_pattern_check token patterns
         || drug_n_cap_check token
         || drug_n_index_check (pyStrip (pyLower token) punctCutset) pidx sidx)))
    ∧ (¬ (pyStrip (pyLower token) punctCutset).length < 3 →
        drug_n_exact_check (pyStrip (pyLower token) punctCutset) lexicon = false →
        drug_n_pattern_check token patterns = false →
        drug_n_cap_check token = false →
        drug_n_index_check (pyStrip (pyLower token) punctCutset) pidx sidx = false →
        partial_match_drug_n token lexicon patterns pidx sidx = false) := by
  have hmain : partial_match_drug_n token lexicon patterns pidx sidx =
      (if (pyStrip (pyLower token) punctCutset).length < 3 then false
       else (drug_n_exact_check (pyStrip (pyLower token) punctCutset) lexicon
         || drug_n_pattern_check token patterns
         || drug_n_cap_check token
         || drug_n_index_check (pyStrip (pyLower token) punctCutset) pidx sidx)) := by
    unfold partial_match_drug_n
    split_ifs with h0 h1 h2 h3 h4 <;> simp_all
  refine ⟨hmain, ?_⟩
  intro h0 h1 h2 h3 h4
  rw [hmain, if_neg h0, h1, h2, h3, h4]
  rfl

/-- C10 witness: for the token `"xyz"` — no lexicon, no patterns, no indexes —
all four checks fail and the function returns `False`. -/
theorem partial_match_drug_n_witness :
    partial_match_drug_n "xyz".data [] [] none none = false :=
  (partial_match_drug_n_prefilter_irrelevant "xyz".data [] [] none none).2
    (by decide) (by decide) (by decide) (by decide) (by decide)
